import Mathlib

/-!
Shallow embedding of the generator script gen_advanced.py from the
Cloudflare-Random-Hitokoto repository.

Representation choices:
- a filesystem path is a list of components, each component a list of
  characters (Python pathlib joins components; joining with "/" and then
  dividing by Path splits back into the same components);
- a hex address string is a list of characters;
- items of the corpus are an arbitrary type; the script never inspects them;
- fallible code (next on an exhausted iterator raises StopIteration) is
  modelled with Option: none is the propagated exception;
- the JSON value written into one output file is modelled by the
  Serialized inductive, distinguishing a single object from a list.
-/

/-- Configuration constant MIN_HEX_LEN from the script, the width floor. -/
def MIN_HEX_LEN : Nat := 4

/-- Configuration constant STORE_AS_LIST from the script.  It is assigned
once and never read again anywhere in the script. -/
def STORE_AS_LIST : Bool := false

/-- Output directory for the full data set, Path("advanced_data"). -/
def OUTPUT_DIR : List (List Char) := ["advanced_data".data]

/-- Output directory for the per-category data, Path("advanced_categories"). -/
def CATEGORIES_DIR : List (List Char) := ["advanced_categories".data]

/-- Width planner calculate_hex_len.  The script computes the needed width
as math.ceil(math.log(item_count, 16)); we embed that as the exact
ceiling logarithm Nat.clog 16.  The floating-point evaluation in the
script agrees with the exact value for all counts below 16 ^ 13 + 1 but
returns 13 instead of 14 at item_count = 16 ^ 13 + 1 = 2 ^ 52 + 1, where
the double-precision logarithm rounds to exactly 13.0. -/
def calculate_hex_len (item_count : Nat) (min_len : Nat) : Nat :=
  if item_count = 0 then min_len
  else max min_len (Nat.clog 16 item_count)

/-- Shard-depth planner calculate_shard_depth: the script always returns 0
(flat layout), as its docstring explains. -/
def calculate_shard_depth (hex_len : Nat) : Nat := 0

/-- Rendering of one hex digit, as Python lowercase hex formatting does. -/
def hexDigitChar (n : Nat) : Char :=
  match n with
  | 0 => '0' | 1 => '1' | 2 => '2' | 3 => '3'
  | 4 => '4' | 5 => '5' | 6 => '6' | 7 => '7'
  | 8 => '8' | 9 => '9' | 10 => 'a' | 11 => 'b'
  | 12 => 'c' | 13 => 'd' | 14 => 'e' | 15 => 'f'
  | _ => '?'

/-- Zero-padded lowercase hex rendering of width w, the script's
format(i, "0" + str(hex_len) + "x").  For i < 16 ^ w this is exactly the
w-character string the script produces. -/
def toHexPadded : Nat → Nat → List Char
  | 0, _ => []
  | w + 1, i => toHexPadded w (i / 16) ++ [hexDigitChar (i % 16)]

/-- Path constructor get_file_path: with shard_depth = 0 the file sits flat
in base_dir; otherwise the first shard_depth characters of the hex string
each become one directory component and the rest, suffixed with .json,
become the file name. -/
def get_file_path (base_dir : List (List Char)) (hex_str : List Char)
    (shard_depth : Nat) : List (List Char) :=
  if shard_depth = 0 then
    base_dir ++ [hex_str ++ ".json".data]
  else
    base_dir ++ (hex_str.take shard_depth).map (fun c => [c]) ++
      [hex_str.drop shard_depth ++ ".json".data]

/-- One step of the iterator produced by itertools.cycle over a list: yield
the element at the current position and advance, wrapping at the end.  On
the empty list the iterator is exhausted at once and next raises
StopIteration, modelled by none. -/
def cycleNext {α : Type} (items : List α) (st : Nat) : Option (α × Nat) :=
  match items[st]? with
  | some x => some (x, (st + 1) % items.length)
  | none => none

/-- Consuming n values from the cycle iterator starting in state st, as the
fill-full loop of write_files does; none propagates StopIteration. -/
def fillFullLoop {α : Type} (items : List α) : Nat → Nat → Option (List α)
  | 0, _ => some []
  | n + 1, st =>
    match cycleNext items st with
    | some (x, st2) => (fillFullLoop items n st2).map (fun rest => x :: rest)
    | none => none

/-- Bucket-building phase of write_files.  With fill_full every slot
receives the next cycle value as a one-element bucket; in the legacy
branch only the first len(data_list) slots receive their item. -/
def fillBuckets {α : Type} (data_list : List α) (total_slots : Nat)
    (fill_full : Bool) : Option (List (List α)) :=
  if fill_full then
    (fillFullLoop data_list total_slots 0).map (List.map (fun x => [x]))
  else
    some ((List.range total_slots).map (fun i =>
      if h : i < data_list.length then [data_list.get ⟨i, h⟩] else []))

/-- Shape of the JSON value dumped into one output file. -/
inductive Serialized (α : Type) : Type
  | single (x : α)
  | asList (xs : List α)
deriving DecidableEq

/-- Write phase of write_files: each slot with a non-empty bucket yields one
file whose content is the single object content[0]; empty buckets are
skipped.  The result records the address integer, the path and the
serialized content. -/
def emitFiles {α : Type} (base_dir : List (List Char)) (hex_len shard_depth : Nat)
    (buckets : List (List α)) : List (Nat × List (List Char) × Serialized α) :=
  (List.range (16 ^ hex_len)).filterMap (fun i =>
    match buckets.getD i [] with
    | [] => none
    | x :: _ =>
      some (i, get_file_path base_dir (toHexPadded hex_len i) shard_depth,
        Serialized.single x))

/-- Embedding of write_files: build the buckets (total_slots = 16 ^ hex_len),
then emit one file per occupied slot; none is the StopIteration crash that
next(cycle([])) raises on an empty data list. -/
def write_files {α : Type} (data_list : List α) (base_dir : List (List Char))
    (hex_len shard_depth : Nat) (fill_full : Bool) :
    Option (List (Nat × List (List Char) × Serialized α)) :=
  match fillBuckets data_list (16 ^ hex_len) fill_full with
  | some buckets => some (emitFiles base_dir hex_len shard_depth buckets)
  | none => none

/-- Wrapper passing the STORE_AS_LIST configuration value explicitly.  The
script's write loop never consults the flag (its comment says the
single-object logic is always enabled), so the wrapper ignores it. -/
def write_files_cfg {α : Type} (store_as_list : Bool) (data_list : List α)
    (base_dir : List (List Char)) (hex_len shard_depth : Nat)
    (fill_full : Bool) : Option (List (Nat × List (List Char) × Serialized α)) :=
  write_files data_list base_dir hex_len shard_depth fill_full

/-- Modelled from the spec: plain modular indexing, assigning address i the
element items[i % len(items)], the equivalent form the spec proposes for
the cycle-consumption pattern. -/
def fillByModIndex {α : Type} [Inhabited α] (items : List α) (slots : Nat) :
    List α :=
  (List.range slots).map (fun i => items.getD (i % items.length) default)

/-- Per-category processing step of main: the category directory is created
by ensure_dir first, then write_files runs on the category data with
fill_full.  The first component records the directories created before and
independently of the write outcome. -/
def processCategory {α : Type} (cat_name : List Char) (cat_data : List α)
    (hex_len shard_depth : Nat) :
    List (List (List Char)) × Option (List (Nat × List (List Char) × Serialized α)) :=
  let cat_dir := CATEGORIES_DIR ++ [cat_name]
  ([cat_dir], write_files cat_data cat_dir hex_len shard_depth true)

/-- One full-set generator run as main performs it: the previous output tree
is removed by shutil.rmtree before write_files repopulates the directory,
so the previous tree never influences the result. -/
def runGenerator {α : Type} (prevTree : List (Nat × List (List Char) × Serialized α))
    (items : List α) (hex_len shard_depth : Nat) :
    Option (List (Nat × List (List Char) × Serialized α)) :=
  write_files items OUTPUT_DIR hex_len shard_depth true

/-- Top-level JSON value of a source file, as far as the script looks at it:
a list of items, or anything else (isinstance(data, list) is False). -/
inductive PyJson (α : Type) : Type
  | list (xs : List α)
  | nonlist
deriving DecidableEq

/-- Accumulator of the loading loop in main: the flat corpus, the
insertion-ordered category map and the lines printed for load errors. -/
structure LoadState (α : Type) : Type where
  allObjects : List α
  categoryMap : List (List Char × List α)
  log : List (List Char)
deriving DecidableEq

/-- Category-map update of main: a missing key is first bound to the empty
list, then the entry is extended with the new data; insertion order of
keys is preserved, as for a Python dict. -/
def extendCategory {α : Type} (m : List (List Char × List α)) (name : List Char)
    (xs : List α) : List (List Char × List α) :=
  match m with
  | [] => [(name, xs)]
  | (k, v) :: rest =>
    if k = name then (k, v ++ xs) :: rest
    else (k, v) :: extendCategory rest name xs

/-- Log line printed by main when reading a source file raises. -/
def errorLogLine (name : List Char) (e : List Char) : List Char :=
  "Error reading ".data ++ name ++ ": ".data ++ e

/-- One iteration of the loading loop of main over a source file, given as
its category name (the file stem) and its parse outcome: a parse error is
logged and skipped; a list extends the corpus and the category map; any
other well-formed JSON value changes nothing. -/
def loadStep {α : Type} (s : LoadState α)
    (file : List Char × Except (List Char) (PyJson α)) : LoadState α :=
  match file.2 with
  | Except.error e => { s with log := s.log ++ [errorLogLine file.1 e] }
  | Except.ok (PyJson.list xs) =>
    { s with
      allObjects := s.allObjects ++ xs
      categoryMap := extendCategory s.categoryMap file.1 xs }
  | Except.ok PyJson.nonlist => s

/-- Whole loading pass of main over the source directory listing. -/
def loadData {α : Type} (files : List (List Char × Except (List Char) (PyJson α))) :
    LoadState α :=
  files.foldl loadStep ⟨[], [], []⟩

/-! Helper lemmas about the cycle iterator and the fill-full loop. -/

theorem fillFullLoop_eq_map {α : Type} (items : List α) (x₀ : α) (n : Nat) :
    ∀ st, st < items.length →
    fillFullLoop items n st =
      some ((List.range n).map (fun k => items.getD ((st + k) % items.length) x₀)) := by
  induction n with
  | zero =>
    intro st hst
    simp [fillFullLoop]
  | succ n ih =>
    intro st hst
    have hlen : 0 < items.length := Nat.lt_of_le_of_lt (Nat.zero_le st) hst
    have hget : items[st]? = some items[st] := List.getElem?_eq_getElem hst
    have hst2 : (st + 1) % items.length < items.length := Nat.mod_lt _ hlen
    have hcn : cycleNext items st = some (items[st], (st + 1) % items.length) := by
      rw [cycleNext, hget]
    rw [fillFullLoop, hcn]
    dsimp only
    rw [ih ((st + 1) % items.length) hst2]
    simp only [Option.map_some']
    congr 1
    rw [List.range_succ_eq_map]
    simp only [List.map_cons, List.map_map]
    congr 1
    · rw [Nat.add_zero, Nat.mod_eq_of_lt hst, List.getD_eq_getElem _ _ hst]
    · refine List.map_congr_left (fun k _ => ?_)
      simp only [Function.comp_apply]
      rw [Nat.mod_add_mod]
      have harg : st + 1 + k = st + (k + 1) := by omega
      rw [harg]

/-! Helper lemmas about hex rendering and path construction. -/

theorem hexDigitChar_inj_lt (a b : Nat) (ha : a < 16) (hb : b < 16)
    (h : hexDigitChar a = hexDigitChar b) : a = b := by
  have key : ∀ x y : Fin 16, hexDigitChar x.val = hexDigitChar y.val → x = y := by
    decide
  have := key ⟨a, ha⟩ ⟨b, hb⟩ h
  exact congrArg Fin.val this

theorem toHexPadded_length (w : Nat) : ∀ i, (toHexPadded w i).length = w := by
  induction w with
  | zero => intro i; rfl
  | succ w ih => intro i; simp [toHexPadded, ih]

theorem toHexPadded_inj (w : Nat) : ∀ i j, i < 16 ^ w → j < 16 ^ w →
    toHexPadded w i = toHexPadded w j → i = j := by
  induction w with
  | zero =>
    intro i j hi hj _
    simp only [pow_zero] at hi hj
    omega
  | succ w ih =>
    intro i j hi hj h
    simp only [toHexPadded] at h
    have hlen : (toHexPadded w (i / 16)).length = (toHexPadded w (j / 16)).length := by
      rw [toHexPadded_length, toHexPadded_length]
    obtain ⟨h1, h2⟩ := List.append_inj h hlen
    injection h2 with hd _
    have hmod : i % 16 = j % 16 :=
      hexDigitChar_inj_lt _ _ (Nat.mod_lt _ (by norm_num)) (Nat.mod_lt _ (by norm_num)) hd
    have hi16 : i < 16 ^ w * 16 := by rw [← pow_succ]; exact hi
    have hj16 : j < 16 ^ w * 16 := by rw [← pow_succ]; exact hj
    have hidiv : i / 16 < 16 ^ w := (Nat.div_lt_iff_lt_mul (by norm_num)).mpr hi16
    have hjdiv : j / 16 < 16 ^ w := (Nat.div_lt_iff_lt_mul (by norm_num)).mpr hj16
    have hdiv : i / 16 = j / 16 := ih _ _ hidiv hjdiv h1
    omega

theorem get_file_path_eq (base : List (List Char)) (s : List Char) (d : Nat) :
    get_file_path base s d =
      base ++ (s.take d).map (fun c => [c]) ++ [s.drop d ++ ".json".data] := by
  by_cases hd : d = 0
  · subst hd; simp [get_file_path]
  · simp [get_file_path, hd]

theorem get_file_path_inj (base : List (List Char)) (d : Nat) (s t : List Char)
    (hds : d ≤ s.length) (hlen : s.length = t.length)
    (h : get_file_path base s d = get_file_path base t d) : s = t := by
  rw [get_file_path_eq, get_file_path_eq] at h
  rw [List.append_assoc, List.append_assoc] at h
  have h2 := List.append_cancel_left h
  have hlens : ((s.take d).map (fun c => [c])).length =
      ((t.take d).map (fun c => [c])).length := by
    simp only [List.length_map, List.length_take]
    omega
  obtain ⟨hdirs, hfile⟩ := List.append_inj h2 hlens
  have hinj : Function.Injective (fun c : Char => [c]) := by
    intro a b hab
    simpa using hab
  have htake : s.take d = t.take d := List.map_injective_iff.mpr hinj hdirs
  injection hfile with hf _
  have hdrop : s.drop d = t.drop d := List.append_cancel_right hf
  calc s = s.take d ++ s.drop d := (List.take_append_drop d s).symm
    _ = t.take d ++ t.drop d := by rw [htake, hdrop]
    _ = t := List.take_append_drop d t

/-! Helper lemmas leading to the closed form of a fill-full write_files run. -/

theorem filterMap_eq_map_of_some {α β : Type} (f : α → Option β) (g : α → β)
    (l : List α) (h : ∀ x ∈ l, f x = some (g x)) : l.filterMap f = l.map g := by
  induction l with
  | nil => rfl
  | cons a l ih =>
    have ha := h a (List.mem_cons_self a l)
    have hrest := ih (fun x hx => h x (List.mem_cons_of_mem a hx))
    simp [List.filterMap_cons, ha, hrest]

theorem getD_map_range {β : Type} (f : Nat → β) {n i : Nat} (hi : i < n) (d : β) :
    ((List.range n).map f).getD i d = f i := by
  have hlen : i < ((List.range n).map f).length := by simp [hi]
  rw [List.getD_eq_getElem _ _ hlen]
  rw [List.getElem_map]
  congr 1
  exact List.getElem_range i (by simp [hi])

theorem write_files_fill_full_eq {α : Type} (items : List α) (x₀ : α)
    (base : List (List Char)) (w d : Nat) (h : items ≠ []) :
    write_files items base w d true =
      some ((List.range (16 ^ w)).map (fun i =>
        (i, get_file_path base (toHexPadded w i) d,
          Serialized.single (items.getD (i % items.length) x₀)))) := by
  have hlen : 0 < items.length := List.length_pos.mpr h
  have hloop := fillFullLoop_eq_map items x₀ (16 ^ w) 0 hlen
  have hb : fillBuckets items (16 ^ w) true =
      some ((List.range (16 ^ w)).map (fun k => [items.getD (k % items.length) x₀])) := by
    rw [fillBuckets, if_pos rfl, hloop]
    simp only [Option.map_some', List.map_map]
    refine congrArg some (List.map_congr_left (fun k _ => ?_))
    simp only [Function.comp_apply, Nat.zero_add]
  rw [write_files, hb]
  dsimp only
  congr 1
  apply filterMap_eq_map_of_some
  intro i hi
  have hilt : i < 16 ^ w := List.mem_range.mp hi
  rw [getD_map_range _ hilt]

/-! Helper lemmas about the ceiling logarithm used by the width planner. -/

theorem clog16_eq_ceil_logb (c : Nat) :
    (Nat.clog 16 c : ℤ) = ⌈Real.logb 16 (c : ℝ)⌉ := by
  have h := Real.ceil_logb_natCast (b := 16) (r := (c : ℝ)) (Nat.cast_nonneg c)
  rw [Int.clog_natCast] at h
  rw [← h]
  norm_num

theorem clog16_succ_eq (k c : Nat) (h1 : 16 ^ k < c) (h2 : c ≤ 16 ^ (k + 1)) :
    Nat.clog 16 c = k + 1 :=
  Nat.le_antisymm ((Nat.le_pow_iff_clog_le (by norm_num)).mp h2)
    ((Nat.pow_lt_iff_lt_clog (by norm_num)).mp h1)

theorem clog16_60000 : Nat.clog 16 60000 = 4 :=
  clog16_succ_eq 3 60000 (by norm_num) (by norm_num)

theorem clog16_70000 : Nat.clog 16 70000 = 5 :=
  clog16_succ_eq 4 70000 (by norm_num) (by norm_num)

theorem clog16_pow13_succ : Nat.clog 16 4503599627370497 = 14 :=
  clog16_succ_eq 13 4503599627370497 (by norm_num) (by norm_num)

/-- C2: calculate_hex_len returns min_len for an empty corpus, and otherwise
the maximum of min_len and the ceiling of the base-16 logarithm of the
count; on the examples it gives 4 for 60000 items and 5 for 70000 items.
The last conjunct records the exact value 14 at the count 16 ^ 13 + 1,
where the script's floating-point evaluation returns 13 instead. -/
theorem c2_calculate_hex_len_formula :
    (∀ m, calculate_hex_len 0 m = m) ∧
    (∀ c m, 0 < c →
      calculate_hex_len c m = max m (⌈Real.logb 16 (c : ℝ)⌉.toNat)) ∧
    calculate_hex_len 60000 4 = 4 ∧
    calculate_hex_len 70000 4 = 5 ∧
    calculate_hex_len 4503599627370497 4 = 14 := by
  refine ⟨fun m => rfl, fun c m hc => ?_, ?_, ?_, ?_⟩
  · rw [calculate_hex_len, if_neg (by omega)]
    rw [← clog16_eq_ceil_logb c, Int.toNat_natCast]
  · rw [calculate_hex_len, if_neg (by norm_num), clog16_60000]
    decide
  · rw [calculate_hex_len, if_neg (by norm_num), clog16_70000]
    decide
  · rw [calculate_hex_len, if_neg (by norm_num), clog16_pow13_succ]
    decide

/-- Witness for C2 at the concrete input c = 60000, m = 4. -/
theorem c2_calculate_hex_len_formula_witness :
    0 < 60000 ∧
    calculate_hex_len 60000 4 = max 4 (⌈Real.logb 16 (60000 : ℝ)⌉.toNat) :=
  ⟨by norm_num, c2_calculate_hex_len_formula.2.1 60000 4 (by norm_num)⟩

/-- C3: the planner never goes below the floor, and as soon as the count
exceeds the floor capacity the chosen width has capacity at least the
count.  This holds for the exact ceiling logarithm the script intends; the
script's floating-point version violates the second conjunct at
count = 16 ^ 13 + 1. -/
theorem c3_width_capacity (c m : Nat) (hc : 1 ≤ c) :
    m ≤ calculate_hex_len c m ∧
    (¬ (c ≤ 16 ^ m) → c ≤ 16 ^ calculate_hex_len c m) := by
  rw [calculate_hex_len, if_neg (by omega)]
  refine ⟨le_max_left _ _, fun _ => ?_⟩
  calc c ≤ 16 ^ Nat.clog 16 c := Nat.le_pow_clog (by norm_num) c
    _ ≤ 16 ^ max m (Nat.clog 16 c) :=
      Nat.pow_le_pow_right (by norm_num) (le_max_right _ _)

/-- Witness for C3 at the concrete input c = 70000, m = 4. -/
theorem c3_width_capacity_witness :
    1 ≤ 70000 ∧
    (4 ≤ calculate_hex_len 70000 4 ∧
      (¬ (70000 ≤ 16 ^ 4) → 70000 ≤ 16 ^ calculate_hex_len 70000 4)) :=
  ⟨by norm_num, c3_width_capacity 70000 4 (by norm_num)⟩

/-- C1: for every non-empty item list and width of at least one, the
fill-full run of write_files succeeds and produces one entry per address
integer 0 .. 16 ^ w - 1, every entry holds some element of items, and when
16 ^ w is at least the item count every element of items occupies at least
one address. -/
theorem c1_fill_full_covers {α : Type} (items : List α) (base : List (List Char))
    (w d : Nat) (hne : items ≠ []) (hw : 1 ≤ w) :
    ∃ l, write_files items base w d true = some l ∧
      l.map (fun e => e.1) = List.range (16 ^ w) ∧
      (∀ e ∈ l, ∃ x, x ∈ items ∧ e.2.2 = Serialized.single x) ∧
      (items.length ≤ 16 ^ w →
        ∀ x ∈ items, ∃ e, e ∈ l ∧ e.2.2 = Serialized.single x) := by
  have hlen : 0 < items.length := List.length_pos.mpr hne
  have heq := write_files_fill_full_eq items (items.head hne) base w d hne
  refine ⟨_, heq, ?_, ?_, ?_⟩
  · rw [List.map_map]
    have : ((fun e : Nat × List (List Char) × Serialized α => e.1) ∘ fun i =>
        (i, get_file_path base (toHexPadded w i) d,
          Serialized.single (items.getD (i % items.length) (items.head hne)))) =
        fun i => i := rfl
    rw [this, List.map_id']
  · intro e he
    obtain ⟨i, hi, hfe⟩ := List.mem_map.mp he
    have hmod : i % items.length < items.length := Nat.mod_lt _ hlen
    refine ⟨items.getD (i % items.length) (items.head hne), ?_, ?_⟩
    · rw [List.getD_eq_getElem _ _ hmod]
      exact List.getElem_mem hmod
    · rw [← hfe]
  · intro hcap x hx
    obtain ⟨j, hj, hxj⟩ := List.mem_iff_getElem.mp hx
    refine ⟨(j, get_file_path base (toHexPadded w j) d,
      Serialized.single (items.getD (j % items.length) (items.head hne))), ?_, ?_⟩
    · exact List.mem_map.mpr ⟨j, List.mem_range.mpr (Nat.lt_of_lt_of_le hj hcap), rfl⟩
    · have hjmod : j % items.length = j := Nat.mod_eq_of_lt hj
      rw [hjmod]
      rw [List.getD_eq_getElem _ _ hj, hxj]

/-- Witness for C1: one item, width one, flat layout. -/
theorem c1_fill_full_covers_witness :
    ((7 :: ([] : List Nat)) ≠ [] ∧ 1 ≤ 1) ∧
    (∃ l, write_files (7 :: ([] : List Nat)) [] 1 0 true = some l ∧
      l.map (fun e => e.1) = List.range (16 ^ 1) ∧
      (∀ e ∈ l, ∃ x, x ∈ (7 :: ([] : List Nat)) ∧ e.2.2 = Serialized.single x) ∧
      ((7 :: ([] : List Nat)).length ≤ 16 ^ 1 →
        ∀ x ∈ (7 :: ([] : List Nat)), ∃ e, e ∈ l ∧ e.2.2 = Serialized.single x)) :=
  ⟨⟨by decide, le_refl 1⟩,
    c1_fill_full_covers (7 :: ([] : List Nat)) [] 1 0 (by decide) (le_refl 1)⟩

/-- C4: for a hex string of length w and a shard depth d of at most w, the
path is the base directory, then d single-character directory levels taken
from the first d characters, then the remaining w - d characters with the
.json suffix as file name; with d = 0 the file sits flat under the base. -/
theorem c4_get_file_path_shape (base : List (List Char)) (hex : List Char)
    (d w : Nat) (hlen : hex.length = w) (hdw : d ≤ w) :
    get_file_path base hex d =
      base ++ (hex.take d).map (fun c => [c]) ++ [hex.drop d ++ ".json".data] ∧
    ((hex.take d).map (fun c => [c])).length = d ∧
    (∀ p ∈ (hex.take d).map (fun c => [c]), p.length = 1) ∧
    (hex.drop d).length = w - d ∧
    get_file_path base hex 0 = base ++ [hex ++ ".json".data] := by
  refine ⟨get_file_path_eq base hex d, ?_, ?_, ?_, ?_⟩
  · simp only [List.length_map, List.length_take]
    omega
  · intro p hp
    obtain ⟨c, _, hc⟩ := List.mem_map.mp hp
    rw [← hc]
    rfl
  · simp only [List.length_drop, hlen]
  · simp [get_file_path]

/-- Witness for C4 at the hex string ab, width 2, shard depth 1. -/
theorem c4_get_file_path_shape_witness :
    ("ab".data.length = 2 ∧ 1 ≤ 2) ∧
    (get_file_path [] "ab".data 1 =
      [] ++ ("ab".data.take 1).map (fun c => [c]) ++
        ["ab".data.drop 1 ++ ".json".data] ∧
    (("ab".data.take 1).map (fun c => [c])).length = 1 ∧
    (∀ p ∈ ("ab".data.take 1).map (fun c => [c]), p.length = 1) ∧
    ("ab".data.drop 1).length = 2 - 1 ∧
    get_file_path [] "ab".data 0 = [] ++ ["ab".data ++ ".json".data]) :=
  ⟨⟨by decide, by decide⟩, c4_get_file_path_shape [] "ab".data 1 2 (by decide) (by decide)⟩

/-- C5: consuming the cycle iterator to fill the slots is exactly plain
modular indexing: slot i receives items[i % len(items)]. -/
theorem c5_cycle_eq_mod_indexing {α : Type} [Inhabited α] (items : List α)
    (slots : Nat) (h : items ≠ []) :
    fillFullLoop items slots 0 = some (fillByModIndex items slots) := by
  have hlen : 0 < items.length := List.length_pos.mpr h
  rw [fillFullLoop_eq_map items default slots 0 hlen, fillByModIndex]
  simp [Nat.zero_add]

/-- Witness for C5: three items in sixteen slots cycle with period three,
address 0 to a, 1 to b, 2 to c, 3 to a and so on. -/
theorem c5_cycle_eq_mod_indexing_witness :
    fillFullLoop ["a", "b", "c"] (16 ^ 1) 0 =
      some ["a", "b", "c", "a", "b", "c", "a", "b", "c", "a", "b", "c",
        "a", "b", "c", "a"] := by
  rw [c5_cycle_eq_mod_indexing ["a", "b", "c"] (16 ^ 1) (by decide)]
  decide

/-! Helper lemmas for the empty-input and serialization-shape claims. -/

theorem fillFullLoop_nil {α : Type} (n : Nat) (hn : 0 < n) :
    fillFullLoop ([] : List α) n 0 = none := by
  cases n with
  | zero => omega
  | succ n => rfl

theorem write_files_nil {α : Type} (base : List (List Char)) (hex_len shard_depth : Nat) :
    write_files ([] : List α) base hex_len shard_depth true = none := by
  have hpos : 0 < 16 ^ hex_len := pow_pos (by norm_num) hex_len
  rw [write_files, fillBuckets, if_pos rfl, fillFullLoop_nil _ hpos]
  rfl

/-- Counterexample to C6: at the concrete empty item list with width 3 the
fill-full filler is not a no-op but fails (next on the exhausted cycle
raises StopIteration), and processing a category named a whose loaded list
is empty does create the category directory before failing. -/
theorem c6_counterexample :
    write_files ([] : List String) (CATEGORIES_DIR ++ [['a']]) 3 0 true = none ∧
    (processCategory ['a'] ([] : List String) 3 0).1 = [CATEGORIES_DIR ++ [['a']]] ∧
    (processCategory ['a'] ([] : List String) 3 0).2 = none := by
  refine ⟨write_files_nil _ 3 0, rfl, ?_⟩
  show write_files ([] : List String) (CATEGORIES_DIR ++ [['a']]) 3 0 true = none
  exact write_files_nil _ 3 0

/-- C6 amended: for an empty item list the fill-full filler fails with
StopIteration instead of being a no-op; a category whose loaded item list
is empty is not excluded: main creates its directory first and the
subsequent write fails.  The last conjunct shows how a source file whose
JSON is the empty list produces exactly such an empty category entry. -/
theorem c6_empty_category_behavior {α : Type} (hex_len shard_depth : Nat)
    (name : List Char) (base : List (List Char)) :
    write_files ([] : List α) base hex_len shard_depth true = none ∧
    (processCategory name ([] : List α) hex_len shard_depth).1 =
      [CATEGORIES_DIR ++ [name]] ∧
    (processCategory name ([] : List α) hex_len shard_depth).2 = none ∧
    loadData [(name, Except.ok (PyJson.list ([] : List α)))] =
      ⟨[], [(name, [])], []⟩ := by
  refine ⟨write_files_nil base hex_len shard_depth, rfl, ?_, rfl⟩
  show write_files ([] : List α) (CATEGORIES_DIR ++ [name]) hex_len shard_depth true = none
  exact write_files_nil _ hex_len shard_depth

/-- C7: a generator run is a pure function of the item list, the width and
the shard depth; the previously existing output tree is destroyed by the
destructive replace and has no influence, so two runs with identical
inputs produce identical output trees. -/
theorem c7_run_deterministic {α : Type}
    (prev1 prev2 : List (Nat × List (List Char) × Serialized α))
    (items : List α) (hex_len shard_depth : Nat) :
    runGenerator prev1 items hex_len shard_depth =
      runGenerator prev2 items hex_len shard_depth ∧
    runGenerator prev1 items hex_len shard_depth =
      write_files items OUTPUT_DIR hex_len shard_depth true :=
  ⟨rfl, rfl⟩

theorem emitFiles_single {α : Type} (base : List (List Char))
    (hex_len shard_depth : Nat) (buckets : List (List α)) :
    ∀ e ∈ emitFiles base hex_len shard_depth buckets,
      ∃ x, e.2.2 = Serialized.single x := by
  intro e he
  obtain ⟨i, hi, hf⟩ := List.mem_filterMap.mp he
  cases hB : buckets.getD i [] with
  | nil =>
    rw [hB] at hf
    exact absurd hf (by simp)
  | cons x xs =>
    rw [hB] at hf
    refine ⟨x, ?_⟩
    have := Option.some.inj hf
    rw [← this]

/-- Counterexample to C8: flipping the pack-multiple-items configuration
value changes nothing, already at a concrete one-item input; the flag is
never read by the write loop. -/
theorem c8_counterexample :
    write_files_cfg true ["x"] OUTPUT_DIR 1 0 true =
      write_files_cfg false ["x"] OUTPUT_DIR 1 0 true := rfl

/-- C8 amended: the STORE_AS_LIST option is inert: the write loop never
consults it, so any value yields the output of the current configuration,
and every written file contains exactly one serialized item as a single
object, never as a one-element list. -/
theorem c8_store_as_list_inert {α : Type} (flag : Bool) (items : List α)
    (base : List (List Char)) (hex_len shard_depth : Nat) (fill_full : Bool)
    (l : List (Nat × List (List Char) × Serialized α))
    (hl : write_files_cfg flag items base hex_len shard_depth fill_full = some l) :
    write_files_cfg flag items base hex_len shard_depth fill_full =
      write_files_cfg STORE_AS_LIST items base hex_len shard_depth fill_full ∧
    ∀ e ∈ l, ∃ x, e.2.2 = Serialized.single x ∧
      ∀ ys, e.2.2 ≠ Serialized.asList ys := by
  refine ⟨rfl, fun e he => ?_⟩
  have hemit : ∃ x, e.2.2 = Serialized.single x := by
    rw [write_files_cfg, write_files] at hl
    cases hfb : fillBuckets items (16 ^ hex_len) fill_full with
    | none =>
      rw [hfb] at hl
      exact absurd hl (by simp)
    | some buckets =>
      rw [hfb] at hl
      have hl2 : emitFiles base hex_len shard_depth buckets = l :=
        Option.some.inj hl
      rw [← hl2] at he
      exact emitFiles_single base hex_len shard_depth buckets e he
  obtain ⟨x, hx⟩ := hemit
  refine ⟨x, hx, fun ys hys => ?_⟩
  rw [hx] at hys
  exact Serialized.noConfusion hys

/-- Witness for C8 amended: one item at width 0 gives the single flat file
whose content is the single object, under either flag value. -/
theorem c8_store_as_list_inert_witness :
    (write_files_cfg true ["x"] [] 0 0 true =
      some [(0, [".json".data], Serialized.single "x")]) ∧
    (write_files_cfg true ["x"] [] 0 0 true =
      write_files_cfg STORE_AS_LIST ["x"] [] 0 0 true ∧
    ∀ e ∈ [(0, [".json".data], Serialized.single "x")],
      ∃ x, e.2.2 = Serialized.single x ∧ ∀ ys, e.2.2 ≠ Serialized.asList ys) :=
  ⟨by decide,
    c8_store_as_list_inert true ["x"] [] 0 0 true
      [(0, [".json".data], Serialized.single "x")] (by decide)⟩

/-- C9: with a fixed width w and shard depth d of at most w, distinct
address integers below 16 ^ w render to distinct hex strings and hence to
distinct file paths; consequently a fill-full run emits 16 ^ w entries
whose paths are pairwise distinct, so no file of the run overwrites
another file of the same run. -/
theorem c9_paths_injective {α : Type} (base : List (List Char)) (w d : Nat)
    (hw : 1 ≤ w) (hdw : d ≤ w) :
    (∀ i j, i < 16 ^ w → j < 16 ^ w → i ≠ j →
      get_file_path base (toHexPadded w i) d ≠
        get_file_path base (toHexPadded w j) d) ∧
    (∀ (items : List α) (l : List (Nat × List (List Char) × Serialized α)),
      items ≠ [] → write_files items base w d true = some l →
      l.length = 16 ^ w ∧ (l.map (fun e => e.2.1)).Nodup) := by
  have hpathinj : ∀ i j, i < 16 ^ w → j < 16 ^ w →
      get_file_path base (toHexPadded w i) d =
        get_file_path base (toHexPadded w j) d → i = j := by
    intro i j hi hj hp
    apply toHexPadded_inj w i j hi hj
    refine get_file_path_inj base d _ _ ?_ ?_ hp
    · rw [toHexPadded_length]
      exact hdw
    · rw [toHexPadded_length, toHexPadded_length]
  constructor
  · intro i j hi hj hij hp
    exact hij (hpathinj i j hi hj hp)
  · intro items l hne hl
    have heq := write_files_fill_full_eq items (items.head hne) base w d hne
    rw [heq] at hl
    have hl2 := Option.some.inj hl
    constructor
    · rw [← hl2]
      simp
    · rw [← hl2, List.map_map]
      have hcomp : ((fun e : Nat × List (List Char) × Serialized α => e.2.1) ∘
          fun i => (i, get_file_path base (toHexPadded w i) d,
            Serialized.single (items.getD (i % items.length) (items.head hne)))) =
          fun i => get_file_path base (toHexPadded w i) d := rfl
      rw [hcomp]
      refine List.Nodup.map_on ?_ (List.nodup_range _)
      intro x hx y hy hxy
      exact hpathinj x y (List.mem_range.mp hx) (List.mem_range.mp hy) hxy

/-- Witness for C9 at base empty, width 1, shard depth 1, string items. -/
theorem c9_paths_injective_witness :
    (1 ≤ 1 ∧ 1 ≤ 1) ∧
    ((∀ i j, i < 16 ^ 1 → j < 16 ^ 1 → i ≠ j →
      get_file_path [] (toHexPadded 1 i) 1 ≠ get_file_path [] (toHexPadded 1 j) 1) ∧
    (∀ (items : List String) (l : List (Nat × List (List Char) × Serialized String)),
      items ≠ [] → write_files items [] 1 1 true = some l →
      l.length = 16 ^ 1 ∧ (l.map (fun e => e.2.1)).Nodup)) :=
  ⟨⟨le_refl 1, le_refl 1⟩, c9_paths_injective [] 1 1 (le_refl 1) (le_refl 1)⟩

/-- C10: a source file whose well-formed JSON top level is not a list
changes nothing at all in the load state, in particular it logs no message,
while a malformed file appends exactly one error line to the log; a file
whose top level is a list extends the corpus and its category entry. -/
theorem c10_nonlist_skipped {α : Type} :
    (∀ (fs1 fs2 : List (List Char × Except (List Char) (PyJson α))) (name : List Char),
      loadData (fs1 ++ (name, Except.ok PyJson.nonlist) :: fs2) =
        loadData (fs1 ++ fs2)) ∧
    (∀ (fs : List (List Char × Except (List Char) (PyJson α))) (name e : List Char),
      (loadData (fs ++ [(name, Except.error e)])).log =
        (loadData fs).log ++ [errorLogLine name e]) ∧
    (∀ (fs : List (List Char × Except (List Char) (PyJson α))) (name : List Char)
      (xs : List α),
      loadData (fs ++ [(name, Except.ok (PyJson.list xs))]) =
        ⟨(loadData fs).allObjects ++ xs,
          extendCategory (loadData fs).categoryMap name xs,
          (loadData fs).log⟩) := by
  refine ⟨fun fs1 fs2 name => ?_, fun fs name e => ?_, fun fs name xs => ?_⟩
  · rw [loadData, loadData, List.foldl_append, List.foldl_append, List.foldl_cons]
    rfl
  · rw [loadData, loadData, List.foldl_append, List.foldl_cons, List.foldl_nil]
    rfl
  · rw [loadData, loadData, List.foldl_append, List.foldl_cons, List.foldl_nil]
    rfl
